import Mathlib

/-!
Verification of the TOPSIS package (`topsis.py`): a shallow embedding of the
input validator `check_inputs` and of the scoring engine `topsis`, together
with theorems settling the specification claims.

The validator works over exact rationals and strings (Python floats are
modelled as `ℚ`, Python string `split`/`strip` as `String.splitOn` /
`String.trim`).  The engine is embedded over `ℝ` (numpy float arithmetic is
modelled as exact real arithmetic; `Real.sqrt` models `np.sqrt`).
-/

namespace Topsis

/-- A cell of the raw pandas table: either a non-numeric (string) cell or a
numeric cell.  `np.isreal` is `true` exactly on numeric cells. -/
inductive Cell where
  | str (s : String) : Cell
  | num (q : ℚ) : Cell
deriving DecidableEq, Repr

/-- The raw table read by `pd.read_csv`: a column count (from the header) and
the data rows. -/
structure RawTable where
  ncols : ℕ
  rows : List (List Cell)
deriving DecidableEq, Repr

/-- The failure kinds raised by `check_inputs` (one per `raise` site; the
`MalformedImpacts` kind corresponds to the `except` clause guarding the
impacts parse). -/
inductive CheckError where
  | missingParameter : CheckError
  | insufficientColumns : CheckError
  | nonNumericCriterion : CheckError
  | malformedWeights : CheckError
  | malformedImpacts : CheckError
  | weightCountMismatch : CheckError
  | impactCountMismatch : CheckError
  | invalidImpactSymbol : CheckError
deriving DecidableEq, Repr

/-- `np.isreal` applied to a cell: numeric cells are real, string cells are
not. -/
def cellIsReal : Cell → Bool
  | .str _ => false
  | .num _ => true

/-- Value of a non-empty list of decimal digit characters. -/
def digitsToNat (l : List Char) : Option ℕ :=
  if l.isEmpty then none
  else l.foldl (fun acc c =>
    acc.bind (fun v => if c.isDigit then some (10 * v + (c.toNat - 48)) else none)) (some 0)

/-- Mantissa of a Python float literal (digits with at most one decimal
point; at least one digit overall). -/
def mantVal (cs : List Char) : Option ℚ :=
  let ip := cs.takeWhile (fun c => c != '.')
  let rest := cs.dropWhile (fun c => c != '.')
  match rest with
  | [] => (digitsToNat ip).map (fun v => (v : ℚ))
  | _ :: fp =>
    if fp.contains '.' then none
    else if ip.isEmpty && fp.isEmpty then none
    else
      (if ip.isEmpty then some 0 else digitsToNat ip).bind fun ipv =>
      (if fp.isEmpty then some 0 else digitsToNat fp).map fun fpv =>
      (ipv : ℚ) + (fpv : ℚ) / (10 : ℚ) ^ fp.length

/-- Model of the Python builtin `float` on an already-stripped token:
optional sign, decimal mantissa, optional decimal exponent.  (The `inf`/`nan`
literals and digit underscores accepted by Python lie outside the rational
model and are not produced by the inputs considered here.)  Returns `none`
exactly when `float(token)` raises `ValueError`. -/
def pyFloat (s : String) : Option ℚ :=
  let cs := s.data
  let sgn : ℚ := if cs.head? = some '-' then -1 else 1
  let cs := if cs.head? = some '-' || cs.head? = some '+' then cs.drop 1 else cs
  let mcs := cs.takeWhile (fun c => c != 'e' && c != 'E')
  let ecs := cs.dropWhile (fun c => c != 'e' && c != 'E')
  match ecs with
  | [] => (mantVal mcs).map (fun q => sgn * q)
  | _ :: es =>
    let esgn : ℤ := if es.head? = some '-' then -1 else 1
    let es := if es.head? = some '-' || es.head? = some '+' then es.drop 1 else es
    (mantVal mcs).bind fun q =>
    (digitsToNat es).map fun e =>
    sgn * q * (10 : ℚ) ^ (esgn * (e : ℤ))

/-- Splitting accumulator for `pySplit`. -/
def splitOnCharAux (sep : Char) : List Char → List Char → List (List Char)
  | [], acc => [acc.reverse]
  | c :: cs, acc =>
    if c = sep then acc.reverse :: splitOnCharAux sep cs []
    else splitOnCharAux sep cs (c :: acc)

/-- Model of Python `str.split(sep)` for a single-character separator:
`"a,,b".split(',') == ['a', '', 'b']`.  Total — it never raises. -/
def pySplit (s : String) (sep : Char) : List String :=
  (splitOnCharAux sep s.data []).map String.mk

/-- Model of Python `str.strip()`: remove leading and trailing whitespace.
Total — it never raises. -/
def pyStrip (s : String) : String :=
  String.mk (((s.data.dropWhile Char.isWhitespace).reverse.dropWhile
    Char.isWhitespace).reverse)

/-- Python truthiness of a string (`bool(s)`): non-empty. -/
def pyTruthy (s : String) : Bool := !s.isEmpty

/-- Embedding of `check_inputs` (file reading, an out-of-scope collaborator
concern, is modelled by passing the already-loaded table `df`).  The checks
run in source order: parameter presence, column count, numeric criteria
cells, weights parse (`float` on each comma-separated stripped token),
impacts parse (`split` and `strip` are total, so the `except` branch that
would raise `MalformedImpacts` cannot fire), weight count, impact count,
impact symbols. -/
def check_inputs (input_file weightsStr impactsStr result_file : String)
    (df : RawTable) : Except CheckError (RawTable × List ℚ × List String) :=
  if !(pyTruthy input_file && pyTruthy weightsStr && pyTruthy impactsStr &&
      pyTruthy result_file) then
    .error .missingParameter
  else if df.ncols < 3 then
    .error .insufficientColumns
  else
    let num_criteria := df.ncols - 1
    if !(df.rows.all fun row => (row.drop 1).all cellIsReal) then
      .error .nonNumericCriterion
    else
      match (pySplit weightsStr ',').mapM (fun t => pyFloat (pyStrip t)) with
      | none => .error .malformedWeights
      | some ws =>
        let imps := (pySplit impactsStr ',').map pyStrip
        if ws.length ≠ num_criteria then
          .error .weightCountMismatch
        else if imps.length ≠ num_criteria then
          .error .impactCountMismatch
        else if !(imps.all fun t => t == "+" || t == "-") then
          .error .invalidImpactSymbol
        else
          .ok (df, ws, imps)

/-!
## The TOPSIS engine

Embedding of `topsis(df, weights, impacts)` from the numeric decision matrix
on (the source itself discards the identifier column first:
`decision_matrix = df.iloc[:, 1:]`).  A matrix with `m+1` rows (at least one
row, as required) and `n` criteria columns is a function
`Fin (m+1) → Fin n → ℝ`; an impact is `true` for `'+'` (benefit) and `false`
for `'-'` (cost).
-/

noncomputable section

/-- Step 1 divisor: `norm = np.sqrt(np.sum(decision_matrix**2, axis=0))`,
the Euclidean norm of column `j`. -/
def colNorm {m n : ℕ} (A : Fin (m + 1) → Fin n → ℝ) (j : Fin n) : ℝ :=
  Real.sqrt (∑ i, A i j ^ 2)

/-- Step 1: `normalized_matrix = decision_matrix / norm`. -/
def normalizedMatrix {m n : ℕ} (A : Fin (m + 1) → Fin n → ℝ)
    (i : Fin (m + 1)) (j : Fin n) : ℝ :=
  A i j / colNorm A j

/-- Step 2: `weighted_normalized = normalized_matrix * weights`. -/
def weightedNormalized {m n : ℕ} (A : Fin (m + 1) → Fin n → ℝ)
    (w : Fin n → ℝ) (i : Fin (m + 1)) (j : Fin n) : ℝ :=
  normalizedMatrix A i j * w j

/-- Step 3: `ideal_best[i] = np.max(...)` for `'+'` impacts,
`np.min(...)` for `'-'` impacts, over the weighted-normalized column. -/
def idealBest {m n : ℕ} (A : Fin (m + 1) → Fin n → ℝ) (w : Fin n → ℝ)
    (imp : Fin n → Bool) (j : Fin n) : ℝ :=
  if imp j then
    Finset.univ.sup' Finset.univ_nonempty (fun i => weightedNormalized A w i j)
  else
    Finset.univ.inf' Finset.univ_nonempty (fun i => weightedNormalized A w i j)

/-- Step 3: `ideal_worst[i]`, the min for `'+'` impacts and the max for
`'-'` impacts. -/
def idealWorst {m n : ℕ} (A : Fin (m + 1) → Fin n → ℝ) (w : Fin n → ℝ)
    (imp : Fin n → Bool) (j : Fin n) : ℝ :=
  if imp j then
    Finset.univ.inf' Finset.univ_nonempty (fun i => weightedNormalized A w i j)
  else
    Finset.univ.sup' Finset.univ_nonempty (fun i => weightedNormalized A w i j)

/-- Step 4: `s_best = np.sqrt(np.sum((weighted_normalized - ideal_best)**2, axis=1))`. -/
def sBest {m n : ℕ} (A : Fin (m + 1) → Fin n → ℝ) (w : Fin n → ℝ)
    (imp : Fin n → Bool) (i : Fin (m + 1)) : ℝ :=
  Real.sqrt (∑ j, (weightedNormalized A w i j - idealBest A w imp j) ^ 2)

/-- Step 4: `s_worst = np.sqrt(np.sum((weighted_normalized - ideal_worst)**2, axis=1))`. -/
def sWorst {m n : ℕ} (A : Fin (m + 1) → Fin n → ℝ) (w : Fin n → ℝ)
    (imp : Fin n → Bool) (i : Fin (m + 1)) : ℝ :=
  Real.sqrt (∑ j, (weightedNormalized A w i j - idealWorst A w imp j) ^ 2)

/-- Step 5: `topsis_score = s_worst / (s_best + s_worst)`. -/
def topsisScore {m n : ℕ} (A : Fin (m + 1) → Fin n → ℝ) (w : Fin n → ℝ)
    (imp : Fin n → Bool) (i : Fin (m + 1)) : ℝ :=
  sWorst A w imp i / (sBest A w imp i + sWorst A w imp i)

/-- The score column as a list, one entry per input row. -/
def topsisScoreList {m n : ℕ} (A : Fin (m + 1) → Fin n → ℝ) (w : Fin n → ℝ)
    (imp : Fin n → Bool) : List ℝ :=
  List.ofFn (topsisScore A w imp)

open Classical in
/-- Ascending position of index `i` produced by
`np.argsort(scores).argsort()`: the number of indices sorted strictly before
`i`.  Ties are broken by original index (stable behaviour, which numpy's
small-array insertion sort exhibits and §4.2 of the specification pins
down). -/
def scorePos {N : ℕ} (s : Fin N → ℝ) (i : Fin N) : ℕ :=
  (Finset.univ.filter fun k => s k < s i ∨ (s k = s i ∧ k < i)).card

/-- Step 6: `ranks = len(topsis_score) - np.argsort(topsis_score).argsort()`. -/
def topsisRank {m n : ℕ} (A : Fin (m + 1) → Fin n → ℝ) (w : Fin n → ℝ)
    (imp : Fin n → Bool) (i : Fin (m + 1)) : ℕ :=
  (m + 1) - scorePos (topsisScore A w imp) i

/-!
## Reference TOPSIS definition, from the specification text

Written independently from §4.2 of the specification: per-cell normalization
by the column Euclidean norm, per-column weighting, ideal points as max/min
with the roles swapped on cost columns, Euclidean separation, and
`score = sWorst / (sBest + sWorst)`.
-/

/-- Spec Step 1: `matrix[i][j] / sqrt(sum_i matrix[i][j]^2)`. -/
def specNormalized {m n : ℕ} (A : Fin (m + 1) → Fin n → ℝ)
    (i : Fin (m + 1)) (j : Fin n) : ℝ :=
  A i j / Real.sqrt (∑ r, A r j * A r j)

/-- Spec Step 2: each normalized column multiplied by its weight. -/
def specWeighted {m n : ℕ} (A : Fin (m + 1) → Fin n → ℝ) (w : Fin n → ℝ)
    (i : Fin (m + 1)) (j : Fin n) : ℝ :=
  w j * specNormalized A i j

/-- Spec Step 3: `idealBest[j]` is the max over rows for a Benefit column
and the min over rows for a Cost column. -/
def specIdealBest {m n : ℕ} (A : Fin (m + 1) → Fin n → ℝ) (w : Fin n → ℝ)
    (imp : Fin n → Bool) (j : Fin n) : ℝ :=
  if imp j then Finset.univ.sup' Finset.univ_nonempty (fun r => specWeighted A w r j)
  else Finset.univ.inf' Finset.univ_nonempty (fun r => specWeighted A w r j)

/-- Spec Step 3: `idealWorst[j]`, roles swapped. -/
def specIdealWorst {m n : ℕ} (A : Fin (m + 1) → Fin n → ℝ) (w : Fin n → ℝ)
    (imp : Fin n → Bool) (j : Fin n) : ℝ :=
  if imp j then Finset.univ.inf' Finset.univ_nonempty (fun r => specWeighted A w r j)
  else Finset.univ.sup' Finset.univ_nonempty (fun r => specWeighted A w r j)

/-- Spec Step 4: Euclidean distance of the weighted row to the ideal-best
point. -/
def specSBest {m n : ℕ} (A : Fin (m + 1) → Fin n → ℝ) (w : Fin n → ℝ)
    (imp : Fin n → Bool) (i : Fin (m + 1)) : ℝ :=
  Real.sqrt (∑ j, (specWeighted A w i j - specIdealBest A w imp j) *
    (specWeighted A w i j - specIdealBest A w imp j))

/-- Spec Step 4: Euclidean distance of the weighted row to the ideal-worst
point. -/
def specSWorst {m n : ℕ} (A : Fin (m + 1) → Fin n → ℝ) (w : Fin n → ℝ)
    (imp : Fin n → Bool) (i : Fin (m + 1)) : ℝ :=
  Real.sqrt (∑ j, (specWeighted A w i j - specIdealWorst A w imp j) *
    (specWeighted A w i j - specIdealWorst A w imp j))

/-- Spec Step 5: `score[i] = sWorst[i] / (sBest[i] + sWorst[i])`. -/
def specScore {m n : ℕ} (A : Fin (m + 1) → Fin n → ℝ) (w : Fin n → ℝ)
    (imp : Fin n → Bool) (i : Fin (m + 1)) : ℝ :=
  specSWorst A w imp i / (specSBest A w imp i + specSWorst A w imp i)

end

/-!
## C1: the engine implements the reference TOPSIS definition
-/

lemma specWeighted_eq_weightedNormalized {m n : ℕ} (A : Fin (m + 1) → Fin n → ℝ)
    (w : Fin n → ℝ) (i : Fin (m + 1)) (j : Fin n) :
    specWeighted A w i j = weightedNormalized A w i j := by
  unfold specWeighted specNormalized weightedNormalized normalizedMatrix colNorm
  rw [mul_comm]
  congr 2
  exact congrArg Real.sqrt (Finset.sum_congr rfl fun r _ => (sq (A r j)).symm)

lemma specIdealBest_eq_idealBest {m n : ℕ} (A : Fin (m + 1) → Fin n → ℝ)
    (w : Fin n → ℝ) (imp : Fin n → Bool) (j : Fin n) :
    specIdealBest A w imp j = idealBest A w imp j := by
  unfold specIdealBest idealBest
  simp only [specWeighted_eq_weightedNormalized]

lemma specIdealWorst_eq_idealWorst {m n : ℕ} (A : Fin (m + 1) → Fin n → ℝ)
    (w : Fin n → ℝ) (imp : Fin n → Bool) (j : Fin n) :
    specIdealWorst A w imp j = idealWorst A w imp j := by
  unfold specIdealWorst idealWorst
  simp only [specWeighted_eq_weightedNormalized]

lemma specSBest_eq_sBest {m n : ℕ} (A : Fin (m + 1) → Fin n → ℝ)
    (w : Fin n → ℝ) (imp : Fin n → Bool) (i : Fin (m + 1)) :
    specSBest A w imp i = sBest A w imp i := by
  unfold specSBest sBest
  congr 1
  refine Finset.sum_congr rfl fun j _ => ?_
  rw [specWeighted_eq_weightedNormalized, specIdealBest_eq_idealBest, sq]

lemma specSWorst_eq_sWorst {m n : ℕ} (A : Fin (m + 1) → Fin n → ℝ)
    (w : Fin n → ℝ) (imp : Fin n → Bool) (i : Fin (m + 1)) :
    specSWorst A w imp i = sWorst A w imp i := by
  unfold specSWorst sWorst
  congr 1
  refine Finset.sum_congr rfl fun j _ => ?_
  rw [specWeighted_eq_weightedNormalized, specIdealWorst_eq_idealWorst, sq]

/-- Claim C1: on every decision matrix with at least one row, the scores
computed by the engine (`topsis`, lines 59-92) coincide with the reference
TOPSIS definition assembled from the specification text: column-wise
Euclidean normalization, per-column weighting, ideal points by impact
polarity, Euclidean separations, and `score = sWorst / (sBest + sWorst)`.
In particular this holds for every validated input. -/
theorem topsis_matches_reference {m n : ℕ} (A : Fin (m + 1) → Fin n → ℝ)
    (w : Fin n → ℝ) (imp : Fin n → Bool) (i : Fin (m + 1)) :
    topsisScore A w imp i = specScore A w imp i := by
  unfold topsisScore specScore
  rw [specSBest_eq_sBest, specSWorst_eq_sWorst]

/-!
## C2: ranks are a permutation of 1..N and rank 1 goes to a maximal score
-/

lemma scorePos_filter_subset {N : ℕ} (s : Fin N → ℝ) (i : Fin N)
    [DecidablePred fun k => s k < s i ∨ (s k = s i ∧ k < i)] :
    (Finset.univ.filter fun k => s k < s i ∨ (s k = s i ∧ k < i)) ⊆
      Finset.univ.erase i := by
  intro k hk
  rw [Finset.mem_filter] at hk
  refine Finset.mem_erase.mpr ⟨?_, Finset.mem_univ k⟩
  rintro rfl
  rcases hk.2 with h | ⟨_, h⟩
  · exact lt_irrefl _ h
  · exact lt_irrefl _ h

lemma scorePos_lt {N : ℕ} (s : Fin N → ℝ) (i : Fin N) : scorePos s i < N := by
  classical
  have h1 : scorePos s i ≤ (Finset.univ.erase i).card := by
    unfold scorePos
    exact Finset.card_le_card (scorePos_filter_subset s i)
  have h2 : (Finset.univ.erase i).card = N - 1 := by
    rw [Finset.card_erase_of_mem (Finset.mem_univ i), Finset.card_univ, Fintype.card_fin]
  have h3 : 0 < N := i.pos
  omega

lemma scorePos_lt_of_rel {N : ℕ} (s : Fin N → ℝ) {k i : Fin N}
    (h : s k < s i ∨ (s k = s i ∧ k < i)) : scorePos s k < scorePos s i := by
  classical
  unfold scorePos
  apply Finset.card_lt_card
  rw [Finset.ssubset_iff_of_subset]
  · refine ⟨k, Finset.mem_filter.mpr ⟨Finset.mem_univ k, h⟩, ?_⟩
    intro hk
    rw [Finset.mem_filter] at hk
    rcases hk.2 with h' | ⟨_, h'⟩
    · exact lt_irrefl _ h'
    · exact lt_irrefl _ h'
  · intro j hj
    rw [Finset.mem_filter] at hj ⊢
    refine ⟨Finset.mem_univ j, ?_⟩
    rcases hj.2 with hj' | ⟨hj', hjk⟩
    · rcases h with h | ⟨h, _⟩
      · exact Or.inl (hj'.trans h)
      · exact Or.inl (h ▸ hj')
    · rcases h with h | ⟨h, hki⟩
      · exact Or.inl (hj' ▸ h)
      · exact Or.inr ⟨hj'.trans h, hjk.trans hki⟩

lemma scorePos_injective {N : ℕ} (s : Fin N → ℝ) :
    Function.Injective (scorePos s) := by
  intro i k h
  by_contra hne
  rcases lt_trichotomy (s i) (s k) with hlt | heq | hgt
  · exact absurd h (Nat.ne_of_lt (scorePos_lt_of_rel s (Or.inl hlt)))
  · rcases Ne.lt_or_lt hne with hik | hki
    · exact absurd h (Nat.ne_of_lt (scorePos_lt_of_rel s (Or.inr ⟨heq, hik⟩)))
    · exact absurd h.symm (Nat.ne_of_lt (scorePos_lt_of_rel s (Or.inr ⟨heq.symm, hki⟩)))
  · exact absurd h.symm (Nat.ne_of_lt (scorePos_lt_of_rel s (Or.inl hgt)))

lemma scorePos_surjective {N : ℕ} (s : Fin N → ℝ) (p : ℕ) (hp : p < N) :
    ∃ i, scorePos s i = p := by
  have hbij : Function.Bijective
      (fun i : Fin N => (⟨scorePos s i, scorePos_lt s i⟩ : Fin N)) := by
    rw [Fintype.bijective_iff_injective_and_card]
    exact ⟨fun a b hab => scorePos_injective s (congrArg Fin.val hab), rfl⟩
  obtain ⟨i, hi⟩ := hbij.2 ⟨p, hp⟩
  exact ⟨i, congrArg Fin.val hi⟩

lemma scorePos_top_max {N : ℕ} (s : Fin N → ℝ) (i : Fin N)
    (h : scorePos s i = N - 1) : ∀ k, s k ≤ s i := by
  classical
  intro k
  rcases eq_or_ne k i with rfl | hne
  · exact le_refl _
  have hcard : (Finset.univ.erase i).card = N - 1 := by
    rw [Finset.card_erase_of_mem (Finset.mem_univ i), Finset.card_univ, Fintype.card_fin]
  have hfull : (Finset.univ.filter fun j => s j < s i ∨ (s j = s i ∧ j < i)) =
      Finset.univ.erase i := by
    apply Finset.eq_of_subset_of_card_le (scorePos_filter_subset s i)
    unfold scorePos at h
    rw [hcard, h]
  have hk : k ∈ Finset.univ.filter fun j => s j < s i ∨ (s j = s i ∧ j < i) := by
    rw [hfull]
    exact Finset.mem_erase.mpr ⟨hne, Finset.mem_univ k⟩
  rw [Finset.mem_filter] at hk
  rcases hk.2 with h' | ⟨h', _⟩
  · exact le_of_lt h'
  · exact le_of_eq h'

/-- Claim C2: for every input matrix with at least one row (ties between
scores included), the multiset of ranks produced by line 90
(`len(topsis_score) - np.argsort(topsis_score).argsort()`) is exactly
`{1, ..., N}` — a permutation with no duplicates — and the row holding
rank 1 has a maximal score. -/
theorem topsis_ranks_permutation {m n : ℕ} (A : Fin (m + 1) → Fin n → ℝ)
    (w : Fin n → ℝ) (imp : Fin n → Bool) :
    Finset.univ.val.map (topsisRank A w imp) = (Finset.Icc 1 (m + 1)).val ∧
      ∃ i, topsisRank A w imp i = 1 ∧
        ∀ k, topsisScore A w imp k ≤ topsisScore A w imp i := by
  have hinj : Function.Injective (topsisRank A w imp) := by
    intro a b hab
    apply scorePos_injective (topsisScore A w imp)
    have ha := scorePos_lt (topsisScore A w imp) a
    have hb := scorePos_lt (topsisScore A w imp) b
    unfold topsisRank at hab
    omega
  constructor
  · have hnodup : (Finset.univ.val.map (topsisRank A w imp)).Nodup :=
      Finset.univ.nodup.map hinj
    have himage : Finset.univ.image (topsisRank A w imp) = Finset.Icc 1 (m + 1) := by
      apply Finset.eq_of_subset_of_card_le
      · intro r hr
        rw [Finset.mem_image] at hr
        obtain ⟨i, _, rfl⟩ := hr
        rw [Finset.mem_Icc]
        have := scorePos_lt (topsisScore A w imp) i
        unfold topsisRank
        omega
      · rw [Nat.card_Icc, Finset.card_image_of_injective _ hinj, Finset.card_univ,
          Fintype.card_fin]
        omega
    have hval : (Finset.univ.image (topsisRank A w imp)).val =
        Finset.univ.val.map (topsisRank A w imp) := by
      rw [Finset.image_val, Multiset.dedup_eq_self.mpr hnodup]
    rw [← hval, himage]
  · obtain ⟨i, hi⟩ := scorePos_surjective (topsisScore A w imp) m (by omega)
    refine ⟨i, ?_, scorePos_top_max _ i (by omega : scorePos _ i = (m + 1) - 1)⟩
    unfold topsisRank
    omega

/-!
## Evaluation helpers for small instances
-/

lemma sup'_univ_fin1 (f : Fin 1 → ℝ) :
    Finset.univ.sup' Finset.univ_nonempty f = f 0 := by
  apply le_antisymm
  · apply Finset.sup'_le
    intro i _
    fin_cases i
    exact le_refl _
  · exact Finset.le_sup' f (Finset.mem_univ 0)

lemma inf'_univ_fin1 (f : Fin 1 → ℝ) :
    Finset.univ.inf' Finset.univ_nonempty f = f 0 := by
  apply le_antisymm
  · exact Finset.inf'_le f (Finset.mem_univ 0)
  · apply Finset.le_inf'
    intro i _
    fin_cases i
    exact le_refl _

lemma sup'_univ_fin2 (f : Fin 2 → ℝ) :
    Finset.univ.sup' Finset.univ_nonempty f = max (f 0) (f 1) := by
  apply le_antisymm
  · apply Finset.sup'_le
    intro i _
    fin_cases i
    · exact le_max_left _ _
    · exact le_max_right _ _
  · exact max_le (Finset.le_sup' f (Finset.mem_univ 0)) (Finset.le_sup' f (Finset.mem_univ 1))

lemma inf'_univ_fin2 (f : Fin 2 → ℝ) :
    Finset.univ.inf' Finset.univ_nonempty f = min (f 0) (f 1) := by
  apply le_antisymm
  · exact le_min (Finset.inf'_le f (Finset.mem_univ 0)) (Finset.inf'_le f (Finset.mem_univ 1))
  · apply Finset.le_inf'
    intro i _
    fin_cases i
    · exact min_le_left _ _
    · exact min_le_right _ _

lemma sup'_univ_fin3 (f : Fin 3 → ℝ) :
    Finset.univ.sup' Finset.univ_nonempty f = max (f 0) (max (f 1) (f 2)) := by
  apply le_antisymm
  · apply Finset.sup'_le
    intro i _
    fin_cases i
    · exact le_max_left _ _
    · exact le_max_of_le_right (le_max_left _ _)
    · exact le_max_of_le_right (le_max_right _ _)
  · exact max_le (Finset.le_sup' f (Finset.mem_univ 0))
      (max_le (Finset.le_sup' f (Finset.mem_univ 1)) (Finset.le_sup' f (Finset.mem_univ 2)))

lemma inf'_univ_fin3 (f : Fin 3 → ℝ) :
    Finset.univ.inf' Finset.univ_nonempty f = min (f 0) (min (f 1) (f 2)) := by
  apply le_antisymm
  · exact le_min (Finset.inf'_le f (Finset.mem_univ 0))
      (le_min (Finset.inf'_le f (Finset.mem_univ 1)) (Finset.inf'_le f (Finset.mem_univ 2)))
  · apply Finset.le_inf'
    intro i _
    fin_cases i
    · exact min_le_left _ _
    · exact min_le_of_right_le (min_le_left _ _)
    · exact min_le_of_right_le (min_le_right _ _)

/-!
## C6: one score per row, each in the unit interval
-/

lemma sBest_nonneg {m n : ℕ} (A : Fin (m + 1) → Fin n → ℝ) (w : Fin n → ℝ)
    (imp : Fin n → Bool) (i : Fin (m + 1)) : 0 ≤ sBest A w imp i :=
  Real.sqrt_nonneg _

lemma sWorst_nonneg {m n : ℕ} (A : Fin (m + 1) → Fin n → ℝ) (w : Fin n → ℝ)
    (imp : Fin n → Bool) (i : Fin (m + 1)) : 0 ≤ sWorst A w imp i :=
  Real.sqrt_nonneg _

/-- Claim C6: for well-formed inputs with non-negative entries, no zero-norm
criterion column, and positive separation sums, the engine returns exactly
one score per input row and every score lies in `[0, 1]`. -/
theorem topsis_scores_unit_interval {m n : ℕ} (A : Fin (m + 1) → Fin n → ℝ)
    (w : Fin n → ℝ) (imp : Fin n → Bool)
    (hA : ∀ i j, 0 ≤ A i j)
    (hnorm : ∀ j, colNorm A j ≠ 0)
    (hden : ∀ i, 0 < sBest A w imp i + sWorst A w imp i) :
    (topsisScoreList A w imp).length = m + 1 ∧
      ∀ i, 0 ≤ topsisScore A w imp i ∧ topsisScore A w imp i ≤ 1 := by
  refine ⟨by simp [topsisScoreList], fun i => ?_⟩
  unfold topsisScore
  constructor
  · exact div_nonneg (sWorst_nonneg A w imp i) (le_of_lt (hden i))
  · rw [div_le_one (hden i)]
    exact le_add_of_nonneg_left (sBest_nonneg A w imp i)

/-!
## C3: a row coinciding with both ideal points makes the score denominator 0
-/

/-- Claim C3 evidence: on the single-row input `[[5]]` (weights `[1]`,
impact `'+'`) the weighted-normalized row coincides with both ideal points,
so the denominator `s_best + s_worst` of the unguarded division at line 87
is exactly 0.  The source performs `s_worst / (s_best + s_worst)` with no
guard, so numpy evaluates `0.0 / 0.0`, a NaN — not the score 0 the claim
requires. -/
theorem topsis_single_row_denominator_zero :
    sBest (![![(5 : ℝ)]]) ![1] ![true] 0 + sWorst (![![(5 : ℝ)]]) ![1] ![true] 0 = 0 := by
  have hb : sBest (![![(5 : ℝ)]]) ![1] ![true] 0 = 0 := by
    unfold sBest idealBest
    rw [Fin.sum_univ_one]
    simp only [Matrix.cons_val_zero, if_pos rfl]
    rw [sup'_univ_fin1]
    simp
  have hw : sWorst (![![(5 : ℝ)]]) ![1] ![true] 0 = 0 := by
    unfold sWorst idealWorst
    rw [Fin.sum_univ_one]
    simp only [Matrix.cons_val_zero, if_pos rfl]
    rw [inf'_univ_fin1]
    simp
  rw [hb, hw, add_zero]

/-!
## C4: an all-zero criterion column is not rejected
-/

/-- Claim C4 evidence: on the input `[[0,1],[0,2]]` whose first criterion
column is all zeros, the column norm computed at line 64 is 0, yet `topsis`
has no degenerate-criterion failure path: line 65 divides by the zero norm
(numpy yields NaN) and a full-length score list is still produced.  No
`DegenerateCriterion` error kind exists anywhere in the source. -/
theorem topsis_zero_norm_column_not_rejected :
    colNorm (![![(0 : ℝ), 1], ![0, 2]]) 0 = 0 ∧
      (topsisScoreList (![![(0 : ℝ), 1], ![0, 2]]) ![1, 1] ![true, true]).length = 2 := by
  constructor
  · unfold colNorm
    rw [Fin.sum_univ_two]
    norm_num
  · simp [topsisScoreList]

/-!
## Score comparison machinery

`topsis_score = s_worst / (s_best + s_worst)` compares between two rows by
the rational quantities `s_worst² · s_best²`, which avoids evaluating any
square root on concrete inputs.
-/

lemma sBest_sq {m n : ℕ} (A : Fin (m + 1) → Fin n → ℝ) (w : Fin n → ℝ)
    (imp : Fin n → Bool) (i : Fin (m + 1)) :
    sBest A w imp i ^ 2 =
      ∑ j, (weightedNormalized A w i j - idealBest A w imp j) ^ 2 :=
  Real.sq_sqrt (Finset.sum_nonneg fun j _ => sq_nonneg _)

lemma sWorst_sq {m n : ℕ} (A : Fin (m + 1) → Fin n → ℝ) (w : Fin n → ℝ)
    (imp : Fin n → Bool) (i : Fin (m + 1)) :
    sWorst A w imp i ^ 2 =
      ∑ j, (weightedNormalized A w i j - idealWorst A w imp j) ^ 2 :=
  Real.sq_sqrt (Finset.sum_nonneg fun j _ => sq_nonneg _)

lemma pos_of_sq_pos {x : ℝ} (hx : 0 ≤ x) (h : 0 < x ^ 2) : 0 < x := by
  rcases hx.lt_or_eq with h' | h'
  · exact h'
  · rw [← h'] at h
    simp at h

lemma topsisScore_lt_iff {m n : ℕ} (A : Fin (m + 1) → Fin n → ℝ)
    (w : Fin n → ℝ) (imp : Fin n → Bool) (a b : Fin (m + 1))
    (ha : 0 < sBest A w imp a + sWorst A w imp a)
    (hb : 0 < sBest A w imp b + sWorst A w imp b) :
    topsisScore A w imp a < topsisScore A w imp b ↔
      sWorst A w imp a ^ 2 * sBest A w imp b ^ 2 <
        sWorst A w imp b ^ 2 * sBest A w imp a ^ 2 := by
  unfold topsisScore
  rw [div_lt_div_iff ha hb, mul_add, mul_add,
    mul_comm (sWorst A w imp a) (sWorst A w imp b), add_lt_add_iff_right,
    ← mul_pow, ← mul_pow]
  rw [pow_lt_pow_iff_left₀ (mul_nonneg (sWorst_nonneg A w imp a) (sBest_nonneg A w imp b))
    (mul_nonneg (sWorst_nonneg A w imp b) (sBest_nonneg A w imp a)) two_ne_zero]

lemma sup'_univ_eq_at {N : ℕ} (f : Fin (N + 1) → ℝ) (k : Fin (N + 1))
    (h : ∀ i, f i ≤ f k) :
    Finset.univ.sup' Finset.univ_nonempty f = f k :=
  le_antisymm (Finset.sup'_le _ _ fun i _ => h i) (Finset.le_sup' f (Finset.mem_univ k))

lemma inf'_univ_eq_at {N : ℕ} (f : Fin (N + 1) → ℝ) (k : Fin (N + 1))
    (h : ∀ i, f k ≤ f i) :
    Finset.univ.inf' Finset.univ_nonempty f = f k :=
  le_antisymm (Finset.inf'_le f (Finset.mem_univ k)) (Finset.le_inf' _ _ fun i _ => h i)

lemma colNorm_nonneg {m n : ℕ} (A : Fin (m + 1) → Fin n → ℝ) (j : Fin n) :
    0 ≤ colNorm A j :=
  Real.sqrt_nonneg _

/-- The squared gap between two weighted-normalized cells of the same
column is a rational function of the raw entries: no square root remains. -/
lemma weighted_diff_sq {m n : ℕ} (A : Fin (m + 1) → Fin n → ℝ) (w : Fin n → ℝ)
    (i k : Fin (m + 1)) (j : Fin n) :
    (weightedNormalized A w i j - weightedNormalized A w k j) ^ 2 =
      (A i j - A k j) ^ 2 * w j ^ 2 / ∑ r, A r j ^ 2 := by
  unfold weightedNormalized normalizedMatrix colNorm
  have h1 : A i j / Real.sqrt (∑ r, A r j ^ 2) * w j -
      A k j / Real.sqrt (∑ r, A r j ^ 2) * w j =
      (A i j - A k j) * w j / Real.sqrt (∑ r, A r j ^ 2) := by
    ring
  rw [h1, div_pow, mul_pow, Real.sq_sqrt (Finset.sum_nonneg fun r _ => sq_nonneg _)]

/-!
## C7: rank monotonicity fails

On the matrix `[[0,5],[3,4],[4,0]]` with weights `[1,4]` and two benefit
columns, raising the benefit entry of row 1 in column 0 from 3 to 4 (all
entries non-negative, weights positive, every pairwise score comparison
strict) makes row 0's score rise faster than row 1's own: row 1's rank
worsens from 1 to 2.
-/

lemma ex7_before_squares :
    sBest (![![(0 : ℝ), 5], ![3, 4], ![4, 0]]) ![1, 4] ![true, true] 0 ^ 2 = 16 / 25 ∧
    sWorst (![![(0 : ℝ), 5], ![3, 4], ![4, 0]]) ![1, 4] ![true, true] 0 ^ 2 = 400 / 41 ∧
    sBest (![![(0 : ℝ), 5], ![3, 4], ![4, 0]]) ![1, 4] ![true, true] 1 ^ 2 = 441 / 1025 ∧
    sWorst (![![(0 : ℝ), 5], ![3, 4], ![4, 0]]) ![1, 4] ![true, true] 1 ^ 2 = 6769 / 1025 ∧
    sBest (![![(0 : ℝ), 5], ![3, 4], ![4, 0]]) ![1, 4] ![true, true] 2 ^ 2 = 400 / 41 ∧
    sWorst (![![(0 : ℝ), 5], ![3, 4], ![4, 0]]) ![1, 4] ![true, true] 2 ^ 2 = 16 / 25 := by
  have hc0 := colNorm_nonneg (![![(0 : ℝ), 5], ![3, 4], ![4, 0]]) (0 : Fin 2)
  have hc1 := colNorm_nonneg (![![(0 : ℝ), 5], ![3, 4], ![4, 0]]) (1 : Fin 2)
  have hb0 : idealBest (![![(0 : ℝ), 5], ![3, 4], ![4, 0]]) ![1, 4] ![true, true] 0 =
      weightedNormalized (![![(0 : ℝ), 5], ![3, 4], ![4, 0]]) ![1, 4] 2 0 := by
    unfold idealBest
    rw [if_pos (by norm_num : (![true, true] : Fin 2 → Bool) 0 = true)]
    apply sup'_univ_eq_at
    intro i
    unfold weightedNormalized normalizedMatrix
    fin_cases i <;> gcongr <;> norm_num
  have hb1 : idealBest (![![(0 : ℝ), 5], ![3, 4], ![4, 0]]) ![1, 4] ![true, true] 1 =
      weightedNormalized (![![(0 : ℝ), 5], ![3, 4], ![4, 0]]) ![1, 4] 0 1 := by
    unfold idealBest
    rw [if_pos (by norm_num : (![true, true] : Fin 2 → Bool) 1 = true)]
    apply sup'_univ_eq_at
    intro i
    unfold weightedNormalized normalizedMatrix
    fin_cases i <;> gcongr <;> norm_num
  have hw0 : idealWorst (![![(0 : ℝ), 5], ![3, 4], ![4, 0]]) ![1, 4] ![true, true] 0 =
      weightedNormalized (![![(0 : ℝ), 5], ![3, 4], ![4, 0]]) ![1, 4] 0 0 := by
    unfold idealWorst
    rw [if_pos (by norm_num : (![true, true] : Fin 2 → Bool) 0 = true)]
    apply inf'_univ_eq_at
    intro i
    unfold weightedNormalized normalizedMatrix
    fin_cases i <;> gcongr <;> norm_num
  have hw1 : idealWorst (![![(0 : ℝ), 5], ![3, 4], ![4, 0]]) ![1, 4] ![true, true] 1 =
      weightedNormalized (![![(0 : ℝ), 5], ![3, 4], ![4, 0]]) ![1, 4] 2 1 := by
    unfold idealWorst
    rw [if_pos (by norm_num : (![true, true] : Fin 2 → Bool) 1 = true)]
    apply inf'_univ_eq_at
    intro i
    unfold weightedNormalized normalizedMatrix
    fin_cases i <;> gcongr <;> norm_num
  refine ⟨?_, ?_, ?_, ?_, ?_, ?_⟩ <;>
    [rw [sBest_sq, Fin.sum_univ_two, hb0, hb1]; rw [sWorst_sq, Fin.sum_univ_two, hw0, hw1];
     rw [sBest_sq, Fin.sum_univ_two, hb0, hb1]; rw [sWorst_sq, Fin.sum_univ_two, hw0, hw1];
     rw [sBest_sq, Fin.sum_univ_two, hb0, hb1]; rw [sWorst_sq, Fin.sum_univ_two, hw0, hw1]] <;>
    rw [weighted_diff_sq, weighted_diff_sq, Fin.sum_univ_three, Fin.sum_univ_three] <;>
    norm_num [Matrix.vecHead, Matrix.vecTail]

lemma ex7_after_squares :
    sBest (![![(0 : ℝ), 5], ![4, 4], ![4, 0]]) ![1, 4] ![true, true] 0 ^ 2 = 1 / 2 ∧
    sWorst (![![(0 : ℝ), 5], ![4, 4], ![4, 0]]) ![1, 4] ![true, true] 0 ^ 2 = 400 / 41 ∧
    sBest (![![(0 : ℝ), 5], ![4, 4], ![4, 0]]) ![1, 4] ![true, true] 1 ^ 2 = 16 / 41 ∧
    sWorst (![![(0 : ℝ), 5], ![4, 4], ![4, 0]]) ![1, 4] ![true, true] 1 ^ 2 = 553 / 82 ∧
    sBest (![![(0 : ℝ), 5], ![4, 4], ![4, 0]]) ![1, 4] ![true, true] 2 ^ 2 = 400 / 41 ∧
    sWorst (![![(0 : ℝ), 5], ![4, 4], ![4, 0]]) ![1, 4] ![true, true] 2 ^ 2 = 1 / 2 := by
  have hc0 := colNorm_nonneg (![![(0 : ℝ), 5], ![4, 4], ![4, 0]]) (0 : Fin 2)
  have hc1 := colNorm_nonneg (![![(0 : ℝ), 5], ![4, 4], ![4, 0]]) (1 : Fin 2)
  have hb0 : idealBest (![![(0 : ℝ), 5], ![4, 4], ![4, 0]]) ![1, 4] ![true, true] 0 =
      weightedNormalized (![![(0 : ℝ), 5], ![4, 4], ![4, 0]]) ![1, 4] 1 0 := by
    unfold idealBest
    rw [if_pos (by norm_num : (![true, true] : Fin 2 → Bool) 0 = true)]
    apply sup'_univ_eq_at
    intro i
    unfold weightedNormalized normalizedMatrix
    fin_cases i <;> gcongr <;> norm_num
  have hb1 : idealBest (![![(0 : ℝ), 5], ![4, 4], ![4, 0]]) ![1, 4] ![true, true] 1 =
      weightedNormalized (![![(0 : ℝ), 5], ![4, 4], ![4, 0]]) ![1, 4] 0 1 := by
    unfold idealBest
    rw [if_pos (by norm_num : (![true, true] : Fin 2 → Bool) 1 = true)]
    apply sup'_univ_eq_at
    intro i
    unfold weightedNormalized normalizedMatrix
    fin_cases i <;> gcongr <;> norm_num
  have hw0 : idealWorst (![![(0 : ℝ), 5], ![4, 4], ![4, 0]]) ![1, 4] ![true, true] 0 =
      weightedNormalized (![![(0 : ℝ), 5], ![4, 4], ![4, 0]]) ![1, 4] 0 0 := by
    unfold idealWorst
    rw [if_pos (by norm_num : (![true, true] : Fin 2 → Bool) 0 = true)]
    apply inf'_univ_eq_at
    intro i
    unfold weightedNormalized normalizedMatrix
    fin_cases i <;> gcongr <;> norm_num
  have hw1 : idealWorst (![![(0 : ℝ), 5], ![4, 4], ![4, 0]]) ![1, 4] ![true, true] 1 =
      weightedNormalized (![![(0 : ℝ), 5], ![4, 4], ![4, 0]]) ![1, 4] 2 1 := by
    unfold idealWorst
    rw [if_pos (by norm_num : (![true, true] : Fin 2 → Bool) 1 = true)]
    apply inf'_univ_eq_at
    intro i
    unfold weightedNormalized normalizedMatrix
    fin_cases i <;> gcongr <;> norm_num
  refine ⟨?_, ?_, ?_, ?_, ?_, ?_⟩ <;>
    [rw [sBest_sq, Fin.sum_univ_two, hb0, hb1]; rw [sWorst_sq, Fin.sum_univ_two, hw0, hw1];
     rw [sBest_sq, Fin.sum_univ_two, hb0, hb1]; rw [sWorst_sq, Fin.sum_univ_two, hw0, hw1];
     rw [sBest_sq, Fin.sum_univ_two, hb0, hb1]; rw [sWorst_sq, Fin.sum_univ_two, hw0, hw1]] <;>
    rw [weighted_diff_sq, weighted_diff_sq, Fin.sum_univ_three, Fin.sum_univ_three] <;>
    norm_num [Matrix.vecHead, Matrix.vecTail]

/-- Claim C7 counterexample: on `[[0,5],[3,4],[4,0]]` with positive weights
`[1,4]`, both columns benefit (`'+'`) and all entries non-negative,
increasing row 1's benefit entry in column 0 from 3 to 4 (every other cell,
the weights, and the impacts held fixed) worsens row 1's rank from 1 to 2:
row 0's score rises from just below row 1's to strictly above it (all four
pairwise comparisons involved are strict, so this is not a tie-breaking
artifact).  This refutes "increasing a benefit value never worsens the
row's rank". -/
theorem topsis_rank_monotonicity_counterexample :
    topsisRank (![![(0 : ℝ), 5], ![3, 4], ![4, 0]]) ![1, 4] ![true, true] 1 = 1 ∧
      topsisRank (![![(0 : ℝ), 5], ![4, 4], ![4, 0]]) ![1, 4] ![true, true] 1 = 2 := by
  obtain ⟨b0, w0, b1, w1, b2, w2⟩ := ex7_before_squares
  obtain ⟨b0', w0', b1', w1', b2', w2'⟩ := ex7_after_squares
  have hd0 : 0 < sBest (![![(0 : ℝ), 5], ![3, 4], ![4, 0]]) ![1, 4] ![true, true] 0 +
      sWorst (![![(0 : ℝ), 5], ![3, 4], ![4, 0]]) ![1, 4] ![true, true] 0 :=
    add_pos_of_nonneg_of_pos (sBest_nonneg _ _ _ _)
      (pos_of_sq_pos (sWorst_nonneg _ _ _ _) (by rw [w0]; norm_num))
  have hd1 : 0 < sBest (![![(0 : ℝ), 5], ![3, 4], ![4, 0]]) ![1, 4] ![true, true] 1 +
      sWorst (![![(0 : ℝ), 5], ![3, 4], ![4, 0]]) ![1, 4] ![true, true] 1 :=
    add_pos_of_nonneg_of_pos (sBest_nonneg _ _ _ _)
      (pos_of_sq_pos (sWorst_nonneg _ _ _ _) (by rw [w1]; norm_num))
  have hd2 : 0 < sBest (![![(0 : ℝ), 5], ![3, 4], ![4, 0]]) ![1, 4] ![true, true] 2 +
      sWorst (![![(0 : ℝ), 5], ![3, 4], ![4, 0]]) ![1, 4] ![true, true] 2 :=
    add_pos_of_nonneg_of_pos (sBest_nonneg _ _ _ _)
      (pos_of_sq_pos (sWorst_nonneg _ _ _ _) (by rw [w2]; norm_num))
  have hd0' : 0 < sBest (![![(0 : ℝ), 5], ![4, 4], ![4, 0]]) ![1, 4] ![true, true] 0 +
      sWorst (![![(0 : ℝ), 5], ![4, 4], ![4, 0]]) ![1, 4] ![true, true] 0 :=
    add_pos_of_nonneg_of_pos (sBest_nonneg _ _ _ _)
      (pos_of_sq_pos (sWorst_nonneg _ _ _ _) (by rw [w0']; norm_num))
  have hd1' : 0 < sBest (![![(0 : ℝ), 5], ![4, 4], ![4, 0]]) ![1, 4] ![true, true] 1 +
      sWorst (![![(0 : ℝ), 5], ![4, 4], ![4, 0]]) ![1, 4] ![true, true] 1 :=
    add_pos_of_nonneg_of_pos (sBest_nonneg _ _ _ _)
      (pos_of_sq_pos (sWorst_nonneg _ _ _ _) (by rw [w1']; norm_num))
  have hd2' : 0 < sBest (![![(0 : ℝ), 5], ![4, 4], ![4, 0]]) ![1, 4] ![true, true] 2 +
      sWorst (![![(0 : ℝ), 5], ![4, 4], ![4, 0]]) ![1, 4] ![true, true] 2 :=
    add_pos_of_nonneg_of_pos (sBest_nonneg _ _ _ _)
      (pos_of_sq_pos (sWorst_nonneg _ _ _ _) (by rw [w2']; norm_num))
  have h01 : topsisScore (![![(0 : ℝ), 5], ![3, 4], ![4, 0]]) ![1, 4] ![true, true] 0 <
      topsisScore (![![(0 : ℝ), 5], ![3, 4], ![4, 0]]) ![1, 4] ![true, true] 1 :=
    (topsisScore_lt_iff _ _ _ 0 1 hd0 hd1).mpr (by rw [w0, b1, w1, b0]; norm_num)
  have h21 : topsisScore (![![(0 : ℝ), 5], ![3, 4], ![4, 0]]) ![1, 4] ![true, true] 2 <
      topsisScore (![![(0 : ℝ), 5], ![3, 4], ![4, 0]]) ![1, 4] ![true, true] 1 :=
    (topsisScore_lt_iff _ _ _ 2 1 hd2 hd1).mpr (by rw [w2, b1, w1, b2]; norm_num)
  have h10' : topsisScore (![![(0 : ℝ), 5], ![4, 4], ![4, 0]]) ![1, 4] ![true, true] 1 <
      topsisScore (![![(0 : ℝ), 5], ![4, 4], ![4, 0]]) ![1, 4] ![true, true] 0 :=
    (topsisScore_lt_iff _ _ _ 1 0 hd1' hd0').mpr (by rw [w1', b0', w0', b1']; norm_num)
  have h21' : topsisScore (![![(0 : ℝ), 5], ![4, 4], ![4, 0]]) ![1, 4] ![true, true] 2 <
      topsisScore (![![(0 : ℝ), 5], ![4, 4], ![4, 0]]) ![1, 4] ![true, true] 1 :=
    (topsisScore_lt_iff _ _ _ 2 1 hd2' hd1').mpr (by rw [w2', b1', w1', b2']; norm_num)
  constructor
  · have hpos : scorePos (topsisScore (![![(0 : ℝ), 5], ![3, 4], ![4, 0]]) ![1, 4] ![true, true]) 1 = 2 := by
      unfold scorePos
      have hset : (Finset.univ.filter fun k =>
          topsisScore (![![(0 : ℝ), 5], ![3, 4], ![4, 0]]) ![1, 4] ![true, true] k <
            topsisScore (![![(0 : ℝ), 5], ![3, 4], ![4, 0]]) ![1, 4] ![true, true] 1 ∨
          (topsisScore (![![(0 : ℝ), 5], ![3, 4], ![4, 0]]) ![1, 4] ![true, true] k =
            topsisScore (![![(0 : ℝ), 5], ![3, 4], ![4, 0]]) ![1, 4] ![true, true] 1 ∧ k < 1)) =
          ({0, 2} : Finset (Fin 3)) := by
        apply Finset.ext
        intro k
        simp only [Finset.mem_filter, Finset.mem_univ, true_and, Finset.mem_insert,
          Finset.mem_singleton]
        fin_cases k
        · exact iff_of_true (Or.inl h01) (Or.inl rfl)
        · refine iff_of_false ?_ (by decide)
          rintro (h | ⟨_, h⟩)
          · exact lt_irrefl _ h
          · exact lt_irrefl _ h
        · exact iff_of_true (Or.inl h21) (Or.inr rfl)
      rw [hset]
      decide
    unfold topsisRank
    rw [hpos]
  · have hpos : scorePos (topsisScore (![![(0 : ℝ), 5], ![4, 4], ![4, 0]]) ![1, 4] ![true, true]) 1 = 1 := by
      unfold scorePos
      have hset : (Finset.univ.filter fun k =>
          topsisScore (![![(0 : ℝ), 5], ![4, 4], ![4, 0]]) ![1, 4] ![true, true] k <
            topsisScore (![![(0 : ℝ), 5], ![4, 4], ![4, 0]]) ![1, 4] ![true, true] 1 ∨
          (topsisScore (![![(0 : ℝ), 5], ![4, 4], ![4, 0]]) ![1, 4] ![true, true] k =
            topsisScore (![![(0 : ℝ), 5], ![4, 4], ![4, 0]]) ![1, 4] ![true, true] 1 ∧ k < 1)) =
          ({2} : Finset (Fin 3)) := by
        apply Finset.ext
        intro k
        simp only [Finset.mem_filter, Finset.mem_univ, true_and, Finset.mem_singleton]
        fin_cases k
        · refine iff_of_false ?_ (by decide)
          rintro (h | ⟨h, _⟩)
          · exact absurd h (not_lt_of_gt h10')
          · exact absurd h (ne_of_gt h10')
        · refine iff_of_false ?_ (by decide)
          rintro (h | ⟨_, h⟩)
          · exact lt_irrefl _ h
          · exact lt_irrefl _ h
        · exact iff_of_true (Or.inl h21') rfl
      rw [hset]
      decide
    unfold topsisRank
    rw [hpos]

/-!
## C7 amended: own-score monotonicity on non-negative data

When one entry of the matrix changes inside column `j0`, the
weighted-normalized gap between row `r` and the changed row is
`w·(t - x)/√(x² + c)` with `t` the raw entry of row `r`, `x` the changed
entry and `c` the (fixed) sum of squares of the other rows of the column.
The key analytic fact: for non-negative data this gap is antitone in `x`.
-/

lemma ratio_antitone {t a b c : ℝ} (ht : 0 ≤ t) (ha : 0 ≤ a) (hab : a ≤ b)
    (hc : 0 ≤ c) (hpos : 0 < a ^ 2 + c) :
    (t - b) / Real.sqrt (b ^ 2 + c) ≤ (t - a) / Real.sqrt (a ^ 2 + c) := by
  have hb : 0 ≤ b := ha.trans hab
  have hpos' : 0 < b ^ 2 + c := by nlinarith
  have hsa : 0 < Real.sqrt (a ^ 2 + c) := Real.sqrt_pos.mpr hpos
  have hsb : 0 < Real.sqrt (b ^ 2 + c) := Real.sqrt_pos.mpr hpos'
  rw [div_le_div_iff hsb hsa]
  rcases le_total t a with hta | hat
  · have h1 : 0 ≤ a - t := by linarith
    have h2 : 0 ≤ b - t := by linarith
    have hsq : (a - t) ^ 2 * (b ^ 2 + c) ≤ (b - t) ^ 2 * (a ^ 2 + c) := by
      nlinarith [mul_nonneg (mul_nonneg (sub_nonneg.mpr hab) hc) h1,
        mul_nonneg (mul_nonneg (sub_nonneg.mpr hab) hc) h2,
        mul_nonneg (mul_nonneg (mul_nonneg (sub_nonneg.mpr hab) ht) ha) h2,
        mul_nonneg (mul_nonneg (mul_nonneg (sub_nonneg.mpr hab) ht) hb) h1]
    have key : (a - t) * Real.sqrt (b ^ 2 + c) ≤ (b - t) * Real.sqrt (a ^ 2 + c) := by
      have hs1 : Real.sqrt ((a - t) ^ 2 * (b ^ 2 + c)) ≤
          Real.sqrt ((b - t) ^ 2 * (a ^ 2 + c)) := Real.sqrt_le_sqrt hsq
      rw [Real.sqrt_mul (sq_nonneg _), Real.sqrt_mul (sq_nonneg _),
        Real.sqrt_sq h1, Real.sqrt_sq h2] at hs1
      exact hs1
    nlinarith [key]
  · rcases le_total t b with htb | hbt
    · have hle : (t - b) * Real.sqrt (a ^ 2 + c) ≤ 0 :=
        mul_nonpos_of_nonpos_of_nonneg (by linarith) hsa.le
      have hge : 0 ≤ (t - a) * Real.sqrt (b ^ 2 + c) :=
        mul_nonneg (by linarith) hsb.le
      linarith
    · have hsab : Real.sqrt (a ^ 2 + c) ≤ Real.sqrt (b ^ 2 + c) :=
        Real.sqrt_le_sqrt (by nlinarith)
      exact mul_le_mul (by linarith : t - b ≤ t - a) hsab hsa.le (by linarith)

lemma sup'_sub_const {N : ℕ} (f : Fin (N + 1) → ℝ) (k : ℝ) :
    Finset.univ.sup' Finset.univ_nonempty f - k =
      Finset.univ.sup' Finset.univ_nonempty fun i => f i - k := by
  apply le_antisymm
  · rw [sub_le_iff_le_add]
    apply Finset.sup'_le
    intro i _
    have := Finset.le_sup' (fun i => f i - k) (Finset.mem_univ i)
    linarith
  · apply Finset.sup'_le
    intro i _
    have := Finset.le_sup' f (Finset.mem_univ i)
    linarith

lemma const_sub_inf' {N : ℕ} (f : Fin (N + 1) → ℝ) (k : ℝ) :
    k - Finset.univ.inf' Finset.univ_nonempty f =
      Finset.univ.sup' Finset.univ_nonempty fun i => k - f i := by
  apply le_antisymm
  · rw [sub_le_iff_le_add]
    apply le_add_of_sub_left_le
    rw [Finset.le_inf'_iff]
    intro i _
    have := Finset.le_sup' (fun i => k - f i) (Finset.mem_univ i)
    simp only at this
    linarith
  · apply Finset.sup'_le
    intro i _
    have := Finset.inf'_le f (Finset.mem_univ i)
    linarith

/-- Claim C7, amended: on well-formed inputs with non-negative matrix
entries and positive weights, increasing a benefit-criterion entry of row
`i0` (or decreasing a cost-criterion entry, keeping it non-negative), with
every other cell, the weights and the impacts held fixed, never decreases
row `i0`'s own TOPSIS score.  (The original rank claim is refuted by
`topsis_rank_monotonicity_counterexample`: another row's score can rise
even faster.) -/
theorem topsis_own_score_monotone {m n : ℕ}
    (A A' : Fin (m + 1) → Fin n → ℝ) (w : Fin n → ℝ) (imp : Fin n → Bool)
    (i0 : Fin (m + 1)) (j0 : Fin n)
    (hother : ∀ i j, ¬(i = i0 ∧ j = j0) → A' i j = A i j)
    (hA : ∀ i j, 0 ≤ A i j) (hA' : 0 ≤ A' i0 j0)
    (hw : ∀ j, 0 < w j)
    (hdir : (imp j0 = true ∧ A i0 j0 ≤ A' i0 j0) ∨
      (imp j0 = false ∧ A' i0 j0 ≤ A i0 j0))
    (hS : 0 < ∑ i, A i j0 ^ 2) (hS' : 0 < ∑ i, A' i j0 ^ 2)
    (hden : 0 < sBest A w imp i0 + sWorst A w imp i0)
    (hden' : 0 < sBest A' w imp i0 + sWorst A' w imp i0) :
    topsisScore A w imp i0 ≤ topsisScore A' w imp i0 := by
  have hcol : ∀ r, r ≠ i0 → A' r j0 = A r j0 := fun r hr =>
    hother r j0 (by tauto)
  have hothercol : ∀ j, j ≠ j0 → ∀ i, A' i j = A i j := fun j hj i =>
    hother i j (by tauto)
  have hcnn : 0 ≤ ∑ r ∈ Finset.univ.erase i0, A r j0 ^ 2 :=
    Finset.sum_nonneg fun r _ => sq_nonneg _
  have hSdec : ∑ i, A i j0 ^ 2 =
      A i0 j0 ^ 2 + ∑ r ∈ Finset.univ.erase i0, A r j0 ^ 2 :=
    (Finset.add_sum_erase _ _ (Finset.mem_univ i0)).symm
  have hSdec' : ∑ i, A' i j0 ^ 2 =
      A' i0 j0 ^ 2 + ∑ r ∈ Finset.univ.erase i0, A r j0 ^ 2 := by
    rw [← Finset.add_sum_erase _ _ (Finset.mem_univ i0)]
    congr 1
    refine Finset.sum_congr rfl fun r hr => ?_
    rw [hcol r (Finset.mem_erase.mp hr).1]
  have hgapA : ∀ r, weightedNormalized A w r j0 - weightedNormalized A w i0 j0 =
      (A r j0 - A i0 j0) * w j0 /
        Real.sqrt (A i0 j0 ^ 2 + ∑ r ∈ Finset.univ.erase i0, A r j0 ^ 2) := by
    intro r
    unfold weightedNormalized normalizedMatrix colNorm
    rw [hSdec]
    ring
  have hgapA' : ∀ r, weightedNormalized A' w r j0 - weightedNormalized A' w i0 j0 =
      (A' r j0 - A' i0 j0) * w j0 /
        Real.sqrt (A' i0 j0 ^ 2 + ∑ r ∈ Finset.univ.erase i0, A r j0 ^ 2) := by
    intro r
    unfold weightedNormalized normalizedMatrix colNorm
    rw [hSdec']
    ring
  have hxc : 0 < A i0 j0 ^ 2 + ∑ r ∈ Finset.univ.erase i0, A r j0 ^ 2 :=
    hSdec ▸ hS
  have hyc : 0 < A' i0 j0 ^ 2 + ∑ r ∈ Finset.univ.erase i0, A r j0 ^ 2 :=
    hSdec' ▸ hS'
  have sqcomm : ∀ u v : ℝ, (u - v) ^ 2 = (v - u) ^ 2 := fun u v => by ring
  -- the two column-`j0` comparisons, by case on the impact direction
  have hmain :
      (weightedNormalized A' w i0 j0 - idealBest A' w imp j0) ^ 2 ≤
        (weightedNormalized A w i0 j0 - idealBest A w imp j0) ^ 2 ∧
      (weightedNormalized A w i0 j0 - idealWorst A w imp j0) ^ 2 ≤
        (weightedNormalized A' w i0 j0 - idealWorst A' w imp j0) ^ 2 := by
    rcases hdir with ⟨himp, hxy⟩ | ⟨himp, hyx⟩
    · -- benefit column: the changed entry increased
      have hpt : ∀ r,
          weightedNormalized A' w r j0 - weightedNormalized A' w i0 j0 ≤
            weightedNormalized A w r j0 - weightedNormalized A w i0 j0 := by
        intro r
        rw [hgapA r, hgapA' r]
        rcases eq_or_ne r i0 with rfl | hr
        · simp
        · rw [hcol r hr]
          have hkey := ratio_antitone (hA r j0) (hA i0 j0) hxy hcnn hxc
          calc (A r j0 - A' i0 j0) * w j0 /
                Real.sqrt (A' i0 j0 ^ 2 + ∑ r ∈ Finset.univ.erase i0, A r j0 ^ 2) =
              (A r j0 - A' i0 j0) /
                Real.sqrt (A' i0 j0 ^ 2 + ∑ r ∈ Finset.univ.erase i0, A r j0 ^ 2) *
                w j0 := by ring
            _ ≤ (A r j0 - A i0 j0) /
                Real.sqrt (A i0 j0 ^ 2 + ∑ r ∈ Finset.univ.erase i0, A r j0 ^ 2) *
                w j0 := mul_le_mul_of_nonneg_right hkey (hw j0).le
            _ = (A r j0 - A i0 j0) * w j0 /
                Real.sqrt (A i0 j0 ^ 2 + ∑ r ∈ Finset.univ.erase i0, A r j0 ^ 2) := by
              ring
      have hpt2 : ∀ r,
          weightedNormalized A w i0 j0 - weightedNormalized A w r j0 ≤
            weightedNormalized A' w i0 j0 - weightedNormalized A' w r j0 := by
        intro r
        have := hpt r
        linarith
      constructor
      · unfold idealBest
        rw [if_pos himp, if_pos himp, sqcomm _ (Finset.univ.sup' _ _),
          sqcomm _ (Finset.univ.sup' _ _), sup'_sub_const, sup'_sub_const]
        have h0 : (0 : ℝ) ≤ Finset.univ.sup' Finset.univ_nonempty
            fun r => weightedNormalized A' w r j0 - weightedNormalized A' w i0 j0 := by
          have := Finset.le_sup'
            (fun r => weightedNormalized A' w r j0 - weightedNormalized A' w i0 j0)
            (Finset.mem_univ i0)
          simp only [sub_self] at this
          exact this
        exact pow_le_pow_left h0 (Finset.sup'_mono_fun fun r _ => hpt r) 2
      · unfold idealWorst
        rw [if_pos himp, if_pos himp, const_sub_inf', const_sub_inf']
        have h0 : (0 : ℝ) ≤ Finset.univ.sup' Finset.univ_nonempty
            fun r => weightedNormalized A w i0 j0 - weightedNormalized A w r j0 := by
          have := Finset.le_sup'
            (fun r => weightedNormalized A w i0 j0 - weightedNormalized A w r j0)
            (Finset.mem_univ i0)
          simp only [sub_self] at this
          exact this
        exact pow_le_pow_left h0 (Finset.sup'_mono_fun fun r _ => hpt2 r) 2
    · -- cost column: the changed entry decreased (still non-negative)
      have hpt : ∀ r,
          weightedNormalized A w r j0 - weightedNormalized A w i0 j0 ≤
            weightedNormalized A' w r j0 - weightedNormalized A' w i0 j0 := by
        intro r
        rw [hgapA r, hgapA' r]
        rcases eq_or_ne r i0 with rfl | hr
        · simp
        · rw [hcol r hr]
          have hkey := ratio_antitone (hA r j0) hA' hyx hcnn hyc
          calc (A r j0 - A i0 j0) * w j0 /
                Real.sqrt (A i0 j0 ^ 2 + ∑ r ∈ Finset.univ.erase i0, A r j0 ^ 2) =
              (A r j0 - A i0 j0) /
                Real.sqrt (A i0 j0 ^ 2 + ∑ r ∈ Finset.univ.erase i0, A r j0 ^ 2) *
                w j0 := by ring
            _ ≤ (A r j0 - A' i0 j0) /
                Real.sqrt (A' i0 j0 ^ 2 + ∑ r ∈ Finset.univ.erase i0, A r j0 ^ 2) *
                w j0 := mul_le_mul_of_nonneg_right hkey (hw j0).le
            _ = (A r j0 - A' i0 j0) * w j0 /
                Real.sqrt (A' i0 j0 ^ 2 + ∑ r ∈ Finset.univ.erase i0, A r j0 ^ 2) := by
              ring
      have hpt2 : ∀ r,
          weightedNormalized A' w i0 j0 - weightedNormalized A' w r j0 ≤
            weightedNormalized A w i0 j0 - weightedNormalized A w r j0 := by
        intro r
        have := hpt r
        linarith
      have himp' : imp j0 ≠ true := by rw [himp]; exact Bool.false_ne_true
      constructor
      · unfold idealBest
        rw [if_neg himp', if_neg himp', const_sub_inf', const_sub_inf']
        have h0 : (0 : ℝ) ≤ Finset.univ.sup' Finset.univ_nonempty
            fun r => weightedNormalized A' w i0 j0 - weightedNormalized A' w r j0 := by
          have := Finset.le_sup'
            (fun r => weightedNormalized A' w i0 j0 - weightedNormalized A' w r j0)
            (Finset.mem_univ i0)
          simp only [sub_self] at this
          exact this
        exact pow_le_pow_left h0 (Finset.sup'_mono_fun fun r _ => hpt2 r) 2
      · unfold idealWorst
        rw [if_neg himp', if_neg himp', sqcomm _ (Finset.univ.sup' _ _),
          sqcomm _ (Finset.univ.sup' _ _), sup'_sub_const, sup'_sub_const]
        have h0 : (0 : ℝ) ≤ Finset.univ.sup' Finset.univ_nonempty
            fun r => weightedNormalized A w r j0 - weightedNormalized A w i0 j0 := by
          have := Finset.le_sup'
            (fun r => weightedNormalized A w r j0 - weightedNormalized A w i0 j0)
            (Finset.mem_univ i0)
          simp only [sub_self] at this
          exact this
        exact pow_le_pow_left h0 (Finset.sup'_mono_fun fun r _ => hpt r) 2
  -- columns other than `j0` are untouched
  have hcoleq : ∀ j, j ≠ j0 → ∀ i,
      weightedNormalized A' w i j = weightedNormalized A w i j := by
    intro j hj i
    unfold weightedNormalized normalizedMatrix colNorm
    rw [hothercol j hj i]
    have hsum : ∑ r, A' r j ^ 2 = ∑ r, A r j ^ 2 :=
      Finset.sum_congr rfl fun r _ => by rw [hothercol j hj r]
    rw [hsum]
  have hbesteq : ∀ j, j ≠ j0 → idealBest A' w imp j = idealBest A w imp j := by
    intro j hj
    unfold idealBest
    rw [funext (hcoleq j hj)]
  have hworsteq : ∀ j, j ≠ j0 → idealWorst A' w imp j = idealWorst A w imp j := by
    intro j hj
    unfold idealWorst
    rw [funext (hcoleq j hj)]
  -- assemble the separation sums
  have hBsum : ∑ j, (weightedNormalized A' w i0 j - idealBest A' w imp j) ^ 2 ≤
      ∑ j, (weightedNormalized A w i0 j - idealBest A w imp j) ^ 2 := by
    rw [← Finset.add_sum_erase _ _ (Finset.mem_univ j0),
      ← Finset.add_sum_erase _
        (fun j => (weightedNormalized A w i0 j - idealBest A w imp j) ^ 2)
        (Finset.mem_univ j0)]
    refine add_le_add hmain.1 (le_of_eq (Finset.sum_congr rfl fun j hj => ?_))
    rw [hcoleq j (Finset.mem_erase.mp hj).1 i0, hbesteq j (Finset.mem_erase.mp hj).1]
  have hWsum : ∑ j, (weightedNormalized A w i0 j - idealWorst A w imp j) ^ 2 ≤
      ∑ j, (weightedNormalized A' w i0 j - idealWorst A' w imp j) ^ 2 := by
    rw [← Finset.add_sum_erase _ _ (Finset.mem_univ j0),
      ← Finset.add_sum_erase _
        (fun j => (weightedNormalized A' w i0 j - idealWorst A' w imp j) ^ 2)
        (Finset.mem_univ j0)]
    refine add_le_add hmain.2 (le_of_eq (Finset.sum_congr rfl fun j hj => ?_))
    rw [hcoleq j (Finset.mem_erase.mp hj).1 i0, hworsteq j (Finset.mem_erase.mp hj).1]
  have hsB : sBest A' w imp i0 ≤ sBest A w imp i0 := by
    unfold sBest
    exact Real.sqrt_le_sqrt hBsum
  have hsW : sWorst A w imp i0 ≤ sWorst A' w imp i0 := by
    unfold sWorst
    exact Real.sqrt_le_sqrt hWsum
  unfold topsisScore
  rw [div_le_div_iff hden hden']
  have h1 : sWorst A w imp i0 * sBest A' w imp i0 ≤
      sWorst A' w imp i0 * sBest A w imp i0 :=
    mul_le_mul hsW hsB (sBest_nonneg A' w imp i0) (sWorst_nonneg A' w imp i0)
  nlinarith [h1]

/-- Witness for `topsis_own_score_monotone` at the concrete instance of the
counterexample matrices: raising row 1's benefit entry from 3 to 4 does not
decrease row 1's own score. -/
theorem topsis_own_score_monotone_witness :
    topsisScore (![![(0 : ℝ), 5], ![3, 4], ![4, 0]]) ![1, 4] ![true, true] 1 ≤
      topsisScore (![![(0 : ℝ), 5], ![4, 4], ![4, 0]]) ![1, 4] ![true, true] 1 := by
  obtain ⟨b0, w0, b1, w1, b2, w2⟩ := ex7_before_squares
  obtain ⟨b0', w0', b1', w1', b2', w2'⟩ := ex7_after_squares
  refine topsis_own_score_monotone _ _ _ _ 1 0 ?_ ?_ ?_ ?_ ?_ ?_ ?_ ?_ ?_
  · intro i j hij
    fin_cases i <;> fin_cases j <;>
      simp_all [Matrix.vecHead, Matrix.vecTail]
  · intro i j
    fin_cases i <;> fin_cases j <;> norm_num
  · norm_num
  · intro j
    fin_cases j <;> norm_num
  · refine Or.inl ⟨by norm_num, ?_⟩
    norm_num
  · rw [Fin.sum_univ_three]
    norm_num
  · rw [Fin.sum_univ_three]
    norm_num [Matrix.vecHead, Matrix.vecTail]
  · exact add_pos_of_nonneg_of_pos (sBest_nonneg _ _ _ _)
      (pos_of_sq_pos (sWorst_nonneg _ _ _ _) (by rw [w1]; norm_num))
  · exact add_pos_of_nonneg_of_pos (sBest_nonneg _ _ _ _)
      (pos_of_sq_pos (sWorst_nonneg _ _ _ _) (by rw [w1']; norm_num))

/-!
## C8: uniform positive rescaling of the weights changes nothing
-/

lemma sup'_const_mul {N : ℕ} (f : Fin (N + 1) → ℝ) {c : ℝ} (hc : 0 ≤ c) :
    Finset.univ.sup' Finset.univ_nonempty (fun i => c * f i) =
      c * Finset.univ.sup' Finset.univ_nonempty f := by
  apply le_antisymm
  · apply Finset.sup'_le
    intro i _
    exact mul_le_mul_of_nonneg_left (Finset.le_sup' f (Finset.mem_univ i)) hc
  · obtain ⟨i, _, hi⟩ := Finset.exists_mem_eq_sup' Finset.univ_nonempty f
    rw [hi]
    exact Finset.le_sup' (fun i => c * f i) (Finset.mem_univ i)

lemma inf'_const_mul {N : ℕ} (f : Fin (N + 1) → ℝ) {c : ℝ} (hc : 0 ≤ c) :
    Finset.univ.inf' Finset.univ_nonempty (fun i => c * f i) =
      c * Finset.univ.inf' Finset.univ_nonempty f := by
  apply le_antisymm
  · obtain ⟨i, _, hi⟩ := Finset.exists_mem_eq_inf' Finset.univ_nonempty f
    rw [hi]
    exact Finset.inf'_le (fun i => c * f i) (Finset.mem_univ i)
  · apply Finset.le_inf'
    intro i _
    exact mul_le_mul_of_nonneg_left (Finset.inf'_le f (Finset.mem_univ i)) hc

lemma weightedNormalized_smul {m n : ℕ} (A : Fin (m + 1) → Fin n → ℝ)
    (w : Fin n → ℝ) (c : ℝ) (i : Fin (m + 1)) (j : Fin n) :
    weightedNormalized A (fun j => c * w j) i j = c * weightedNormalized A w i j := by
  unfold weightedNormalized
  ring

lemma idealBest_smul {m n : ℕ} (A : Fin (m + 1) → Fin n → ℝ) (w : Fin n → ℝ)
    (imp : Fin n → Bool) {c : ℝ} (hc : 0 ≤ c) (j : Fin n) :
    idealBest A (fun j => c * w j) imp j = c * idealBest A w imp j := by
  unfold idealBest
  rw [show (fun i => weightedNormalized A (fun j => c * w j) i j) =
    (fun i => c * weightedNormalized A w i j) from
    funext fun i => weightedNormalized_smul A w c i j]
  by_cases h : imp j = true
  · simp only [if_pos h]
    exact sup'_const_mul _ hc
  · simp only [if_neg h]
    exact inf'_const_mul _ hc

lemma idealWorst_smul {m n : ℕ} (A : Fin (m + 1) → Fin n → ℝ) (w : Fin n → ℝ)
    (imp : Fin n → Bool) {c : ℝ} (hc : 0 ≤ c) (j : Fin n) :
    idealWorst A (fun j => c * w j) imp j = c * idealWorst A w imp j := by
  unfold idealWorst
  rw [show (fun i => weightedNormalized A (fun j => c * w j) i j) =
    (fun i => c * weightedNormalized A w i j) from
    funext fun i => weightedNormalized_smul A w c i j]
  by_cases h : imp j = true
  · simp only [if_pos h]
    exact inf'_const_mul _ hc
  · simp only [if_neg h]
    exact sup'_const_mul _ hc

lemma sBest_smul {m n : ℕ} (A : Fin (m + 1) → Fin n → ℝ) (w : Fin n → ℝ)
    (imp : Fin n → Bool) {c : ℝ} (hc : 0 ≤ c) (i : Fin (m + 1)) :
    sBest A (fun j => c * w j) imp i = c * sBest A w imp i := by
  unfold sBest
  have h1 : ∀ j, (weightedNormalized A (fun j => c * w j) i j -
      idealBest A (fun j => c * w j) imp j) ^ 2 =
      c ^ 2 * (weightedNormalized A w i j - idealBest A w imp j) ^ 2 := by
    intro j
    rw [weightedNormalized_smul, idealBest_smul A w imp hc]
    ring
  rw [Finset.sum_congr rfl fun j _ => h1 j, ← Finset.mul_sum,
    Real.sqrt_mul (sq_nonneg c), Real.sqrt_sq hc]

lemma sWorst_smul {m n : ℕ} (A : Fin (m + 1) → Fin n → ℝ) (w : Fin n → ℝ)
    (imp : Fin n → Bool) {c : ℝ} (hc : 0 ≤ c) (i : Fin (m + 1)) :
    sWorst A (fun j => c * w j) imp i = c * sWorst A w imp i := by
  unfold sWorst
  have h1 : ∀ j, (weightedNormalized A (fun j => c * w j) i j -
      idealWorst A (fun j => c * w j) imp j) ^ 2 =
      c ^ 2 * (weightedNormalized A w i j - idealWorst A w imp j) ^ 2 := by
    intro j
    rw [weightedNormalized_smul, idealWorst_smul A w imp hc]
    ring
  rw [Finset.sum_congr rfl fun j _ => h1 j, ← Finset.mul_sum,
    Real.sqrt_mul (sq_nonneg c), Real.sqrt_sq hc]

/-- Claim C8: multiplying every weight by the same constant `c > 0` leaves
both the scores and the ranks produced by the engine unchanged — the
weighted matrix, the ideal points and both separations all scale by `c`,
which cancels in `sWorst / (sBest + sWorst)`. -/
theorem topsis_weight_scale_invariant {m n : ℕ} (A : Fin (m + 1) → Fin n → ℝ)
    (w : Fin n → ℝ) (imp : Fin n → Bool) {c : ℝ} (hc : 0 < c) :
    (∀ i, topsisScore A (fun j => c * w j) imp i = topsisScore A w imp i) ∧
      ∀ i, topsisRank A (fun j => c * w j) imp i = topsisRank A w imp i := by
  have hscore : ∀ i, topsisScore A (fun j => c * w j) imp i = topsisScore A w imp i := by
    intro i
    unfold topsisScore
    rw [sBest_smul A w imp hc.le, sWorst_smul A w imp hc.le, ← mul_add,
      mul_div_mul_left _ _ (ne_of_gt hc)]
  refine ⟨hscore, fun i => ?_⟩
  unfold topsisRank
  rw [show topsisScore A (fun j => c * w j) imp = topsisScore A w imp from
    funext hscore]

/-- Witness for `topsis_weight_scale_invariant` with `c = 2` on a concrete
single-row input. -/
theorem topsis_weight_scale_invariant_witness :
    topsisScore (![![(1 : ℝ)]]) (fun j => 2 * (![(1 : ℝ)] : Fin 1 → ℝ) j) ![true] 0 =
      topsisScore (![![(1 : ℝ)]]) ![1] ![true] 0 ∧
    topsisRank (![![(1 : ℝ)]]) (fun j => 2 * (![(1 : ℝ)] : Fin 1 → ℝ) j) ![true] 0 =
      topsisRank (![![(1 : ℝ)]]) ![1] ![true] 0 :=
  ⟨(topsis_weight_scale_invariant (![![(1 : ℝ)]]) ![1] ![true] (by norm_num)).1 0,
   (topsis_weight_scale_invariant (![![(1 : ℝ)]]) ![1] ![true] (by norm_num)).2 0⟩

/-!
## C5, C9, C10: validator behaviour
-/

/-- Claim C5: whenever the structural checks that precede it pass (all four
parameters present, at least 3 columns) and some cell of the criteria region
(each row after its identifier cell) is non-numeric, `check_inputs` rejects
the whole input with the `NonNumericCriterion` failure, before weights or
impacts are even parsed and before any engine computation. -/
theorem check_inputs_rejects_non_numeric
    (input_file weightsStr impactsStr result_file : String) (df : RawTable)
    (h1 : pyTruthy input_file = true) (h2 : pyTruthy weightsStr = true)
    (h3 : pyTruthy impactsStr = true) (h4 : pyTruthy result_file = true)
    (h5 : ¬ df.ncols < 3)
    (h6 : ∃ row ∈ df.rows, ∃ c ∈ row.drop 1, cellIsReal c = false) :
    check_inputs input_file weightsStr impactsStr result_file df =
      .error .nonNumericCriterion := by
  simp only [check_inputs, h1, h2, h3, h4, h5, Bool.and_self, Bool.not_true,
    Bool.false_eq_true, if_false]
  simp only [List.all_eq_true, List.drop_one]
  rw [if_pos]
  simp only [Bool.not_eq_true']
  apply Bool.eq_false_iff.mpr
  intro hall
  rw [List.all_eq_true] at hall
  obtain ⟨row, hrow, c, hc, hcell⟩ := h6
  rw [List.drop_one] at hc
  have h := hall row hrow
  rw [List.all_eq_true] at h
  have h2' := h c hc
  rw [hcell] at h2'
  exact Bool.false_ne_true h2'

/-- Witness for `check_inputs_rejects_non_numeric`: a 4-column table whose
row contains the string `"abc"` in the criteria region. -/
theorem check_inputs_rejects_non_numeric_witness :
    check_inputs "in.csv" "1,1,1" "+,+,-" "out.csv"
      ⟨4, [[.str "a", .num 1, .str "abc", .num 3]]⟩ =
      .error .nonNumericCriterion :=
  check_inputs_rejects_non_numeric "in.csv" "1,1,1" "+,+,-" "out.csv"
    ⟨4, [[.str "a", .num 1, .str "abc", .num 3]]⟩
    (by decide) (by decide) (by decide) (by decide) (by decide) (by decide)

/-- Claim C9: the `MalformedImpacts` branch (the `except ValueError` around
the impacts parse, lines 37-40) is dead code.  Splitting a string on commas
and stripping the tokens are total operations that never raise, so
`check_inputs` never returns `MalformedImpacts` on any input whatsoever;
an impact token that is not `'+'` or `'-'` is instead reported by the later
membership check (line 51) as `InvalidImpactSymbol`. -/
theorem check_inputs_malformed_impacts_unreachable
    (input_file weightsStr impactsStr result_file : String) (df : RawTable) :
    check_inputs input_file weightsStr impactsStr result_file df ≠
      .error .malformedImpacts ∧
    ∀ ws : List ℚ,
      pyTruthy input_file = true → pyTruthy weightsStr = true →
      pyTruthy impactsStr = true → pyTruthy result_file = true →
      ¬ df.ncols < 3 →
      (df.rows.all fun row => (row.drop 1).all cellIsReal) = true →
      (pySplit weightsStr ',').mapM (fun t => pyFloat (pyStrip t)) = some ws →
      ws.length = df.ncols - 1 →
      ((pySplit impactsStr ',').map pyStrip).length = df.ncols - 1 →
      (∃ t ∈ (pySplit impactsStr ',').map pyStrip, t ≠ "+" ∧ t ≠ "-") →
      check_inputs input_file weightsStr impactsStr result_file df =
        .error .invalidImpactSymbol := by
  constructor
  · intro h
    unfold check_inputs at h
    split at h
    · exact CheckError.noConfusion (Except.error.inj h)
    · split at h
      · exact CheckError.noConfusion (Except.error.inj h)
      · split at h
        · exact CheckError.noConfusion (Except.error.inj h)
        · split at h
          · exact CheckError.noConfusion (Except.error.inj h)
          · dsimp only at h
            split at h
            · exact CheckError.noConfusion (Except.error.inj h)
            · split at h
              · exact CheckError.noConfusion (Except.error.inj h)
              · split at h
                · exact CheckError.noConfusion (Except.error.inj h)
                · exact Except.noConfusion h
  · intro ws hp1 hp2 hp3 hp4 hcols hnum hws hwlen hilen hbad
    have hall : ((pySplit impactsStr ',').map pyStrip).all
        (fun t => t == "+" || t == "-") = false := by
      obtain ⟨t, ht, hplus, hminus⟩ := hbad
      apply Bool.eq_false_iff.mpr
      intro hall
      rw [List.all_eq_true] at hall
      have h := hall t ht
      rw [Bool.or_eq_true, beq_iff_eq, beq_iff_eq] at h
      tauto
    have hnot : ¬ ∃ x ∈ df.rows, ∃ c ∈ x.tail, cellIsReal c = false := by
      rw [List.all_eq_true] at hnum
      rintro ⟨row, hrow, c, hc, hcell⟩
      have h := hnum row hrow
      rw [List.drop_one, List.all_eq_true] at h
      have h2 := h c hc
      rw [hcell] at h2
      exact Bool.false_ne_true h2
    have hws' : List.mapM.loop (fun t => pyFloat (pyStrip t))
        (pySplit weightsStr ',') [] = some ws := hws
    simp [check_inputs, hp1, hp2, hp3, hp4, hcols, hnot, hws, hws', hwlen, hilen, hall]

unseal Rat.add Rat.mul Rat.sub Rat.inv Rat.ofScientific in
/-- Witness for `check_inputs_malformed_impacts_unreachable` on the impacts
string `"+,x,-"`: the invalid token `"x"` is reported as
`InvalidImpactSymbol`, not as `MalformedImpacts`. -/
theorem check_inputs_malformed_impacts_unreachable_witness :
    check_inputs "in.csv" "1,1,1" "+,x,-" "out.csv"
      ⟨4, [[.str "a", .num 1, .num 2, .num 3]]⟩ ≠ .error .malformedImpacts ∧
    check_inputs "in.csv" "1,1,1" "+,x,-" "out.csv"
      ⟨4, [[.str "a", .num 1, .num 2, .num 3]]⟩ = .error .invalidImpactSymbol :=
  ⟨(check_inputs_malformed_impacts_unreachable "in.csv" "1,1,1" "+,x,-" "out.csv"
      ⟨4, [[.str "a", .num 1, .num 2, .num 3]]⟩).1,
   (check_inputs_malformed_impacts_unreachable "in.csv" "1,1,1" "+,x,-" "out.csv"
      ⟨4, [[.str "a", .num 1, .num 2, .num 3]]⟩).2 [1, 1, 1]
      (by decide) (by decide) (by decide) (by decide) (by decide) (by decide)
      (by decide) (by decide) (by decide) (by decide)⟩

/-- Claim C10: `check_inputs` never checks that weights are positive.  If
every comma-separated weight token parses as a float and the count matches
the criteria count (and the remaining checks pass), validation succeeds and
the parsed weights — zeros and negatives included — are returned to the
caller unchanged.  No hypothesis about the sign of any weight appears. -/
theorem check_inputs_accepts_nonpositive_weights
    (input_file weightsStr impactsStr result_file : String) (df : RawTable)
    (ws : List ℚ)
    (hp1 : pyTruthy input_file = true) (hp2 : pyTruthy weightsStr = true)
    (hp3 : pyTruthy impactsStr = true) (hp4 : pyTruthy result_file = true)
    (hcols : ¬ df.ncols < 3)
    (hnum : (df.rows.all fun row => (row.drop 1).all cellIsReal) = true)
    (hws : (pySplit weightsStr ',').mapM (fun t => pyFloat (pyStrip t)) = some ws)
    (hwlen : ws.length = df.ncols - 1)
    (hilen : ((pySplit impactsStr ',').map pyStrip).length = df.ncols - 1)
    (hsym : ((pySplit impactsStr ',').map pyStrip).all
      (fun t => t == "+" || t == "-") = true) :
    check_inputs input_file weightsStr impactsStr result_file df =
      .ok (df, ws, (pySplit impactsStr ',').map pyStrip) := by
  have hnot : ¬ ∃ x ∈ df.rows, ∃ c ∈ x.tail, cellIsReal c = false := by
    rw [List.all_eq_true] at hnum
    rintro ⟨row, hrow, c, hc, hcell⟩
    have h := hnum row hrow
    rw [List.drop_one, List.all_eq_true] at h
    have h2 := h c hc
    rw [hcell] at h2
    exact Bool.false_ne_true h2
  have hws' : List.mapM.loop (fun t => pyFloat (pyStrip t))
      (pySplit weightsStr ',') [] = some ws := hws
  simp [check_inputs, hp1, hp2, hp3, hp4, hcols, hnot, hws, hws', hwlen, hilen, hsym]

unseal Rat.add Rat.mul Rat.sub Rat.inv Rat.ofScientific in
/-- Witness for `check_inputs_accepts_nonpositive_weights` on the weights
string `"-1,0,2"`: a negative and a zero weight are accepted and passed
through as `[-1, 0, 2]`. -/
theorem check_inputs_accepts_nonpositive_weights_witness :
    check_inputs "in.csv" "-1,0,2" "+,+,-" "out.csv"
      ⟨4, [[.str "a", .num 1, .num 2, .num 3]]⟩ =
      .ok (⟨4, [[.str "a", .num 1, .num 2, .num 3]]⟩, [-1, 0, 2],
        (pySplit "+,+,-" ',').map pyStrip) :=
  check_inputs_accepts_nonpositive_weights "in.csv" "-1,0,2" "+,+,-" "out.csv"
    ⟨4, [[.str "a", .num 1, .num 2, .num 3]]⟩ [-1, 0, 2]
    (by decide) (by decide) (by decide) (by decide) (by decide) (by decide)
    (by decide) (by decide) (by decide) (by decide)

/-- Witness for `topsis_scores_unit_interval` on the concrete 2×1 input
`[[3],[4]]` with weight `[1]` and impact `'+'`. -/
theorem topsis_scores_unit_interval_witness :
    (topsisScoreList (![![(3 : ℝ)], ![4]]) ![1] ![true]).length = 1 + 1 ∧
      0 ≤ topsisScore (![![(3 : ℝ)], ![4]]) ![1] ![true] 0 ∧
      topsisScore (![![(3 : ℝ)], ![4]]) ![1] ![true] 0 ≤ 1 := by
  have hc0 := colNorm_nonneg (![![(3 : ℝ)], ![4]]) (0 : Fin 1)
  have hb : idealBest (![![(3 : ℝ)], ![4]]) ![1] ![true] 0 =
      weightedNormalized (![![(3 : ℝ)], ![4]]) ![1] 1 0 := by
    unfold idealBest
    rw [if_pos (by norm_num : (![true] : Fin 1 → Bool) 0 = true)]
    apply sup'_univ_eq_at
    intro i
    unfold weightedNormalized normalizedMatrix
    fin_cases i <;> gcongr <;> norm_num
  have hwo : idealWorst (![![(3 : ℝ)], ![4]]) ![1] ![true] 0 =
      weightedNormalized (![![(3 : ℝ)], ![4]]) ![1] 0 0 := by
    unfold idealWorst
    rw [if_pos (by norm_num : (![true] : Fin 1 → Bool) 0 = true)]
    apply inf'_univ_eq_at
    intro i
    unfold weightedNormalized normalizedMatrix
    fin_cases i <;> gcongr <;> norm_num
  have hB0 : sBest (![![(3 : ℝ)], ![4]]) ![1] ![true] 0 ^ 2 = 1 / 25 := by
    rw [sBest_sq, Fin.sum_univ_one, hb, weighted_diff_sq, Fin.sum_univ_two]
    norm_num
  have hW1 : sWorst (![![(3 : ℝ)], ![4]]) ![1] ![true] 1 ^ 2 = 1 / 25 := by
    rw [sWorst_sq, Fin.sum_univ_one, hwo, weighted_diff_sq, Fin.sum_univ_two]
    norm_num
  have key := topsis_scores_unit_interval (![![(3 : ℝ)], ![4]]) ![1] ![true]
    (by intro i j; fin_cases i <;> fin_cases j <;> norm_num)
    (by
      intro j
      fin_cases j
      unfold colNorm
      rw [Fin.sum_univ_two]
      rw [Real.sqrt_ne_zero']
      norm_num)
    (by
      intro i
      fin_cases i
      · show 0 < sBest (![![(3 : ℝ)], ![4]]) ![1] ![true] 0 +
          sWorst (![![(3 : ℝ)], ![4]]) ![1] ![true] 0
        exact add_pos_of_pos_of_nonneg
          (pos_of_sq_pos (sBest_nonneg _ _ _ _) (by rw [hB0]; norm_num))
          (sWorst_nonneg _ _ _ _)
      · show 0 < sBest (![![(3 : ℝ)], ![4]]) ![1] ![true] 1 +
          sWorst (![![(3 : ℝ)], ![4]]) ![1] ![true] 1
        exact add_pos_of_nonneg_of_pos (sBest_nonneg _ _ _ _)
          (pos_of_sq_pos (sWorst_nonneg _ _ _ _) (by rw [hW1]; norm_num)))
  exact ⟨key.1, key.2 0⟩

end Topsis
